import Mathlib

/-!
Shallow embedding of the retrieval-augmented context pipeline of the
Multimodal-RAG-Chat-with-Videos backend (src/BackEnd).

Conventions of the embedding:
* Python floats are modelled as rationals.
* The sentence-transformer embedding model is an opaque deterministic
  function, passed as a parameter (embed : String → List ℚ).
* The chromadb vector store is an external collaborator (not part of the
  repository sources); its collections are modelled from the spec, see
  the Collection structure below.  The distance metric is likewise a
  parameter (dist), since the store is configured with cosine distance
  computed outside the repository.
* json.dumps on a list of strings is modelled as the list itself (the
  serialized payload is never parsed back by the embedded code paths).
* datetime values are opaque iso-format strings.
* Python exceptions raised by collaborators are modelled with Except.
-/

namespace VideoRAG

/-! ## Data model (src/BackEnd/App/Models/video.py)

Only the fields read by the embedded operations are kept; transport-only
fields (file sizes, filenames, status enums) are omitted. -/

/-- VideoFrame from Models/video.py. -/
structure VideoFrame where
  id : String
  video_id : String
  timestamp : ℚ
  frame_number : Nat
  image_path : String
  description : Option String := none
  objects : List String := []
  actions : List String := []
  scene_description : Option String := none
deriving DecidableEq

/-- VideoInfo from Models/video.py (fields read by the RAG service). -/
structure VideoInfo where
  id : String
  transcript : Option String := none
  uploaded_at : String := ""
deriving DecidableEq

/-- ChatMessage from Models/video.py. -/
structure ChatMessage where
  id : String
  video_id : String
  role : String
  content : String
  timestamp : String
  context_frames : List String := []
deriving DecidableEq

/-! ## Vector index

chromadb is an external dependency, not code of this repository; the
collection behaviour is modelled from the spec (sections 3 and 4.4). -/

/-- Metadata map attached to an indexed record.  The Python code stores a
string-keyed dict; here each key that some code path writes becomes an
optional field.  The "timestamp" key holds a number for frame records and
an iso-format string for transcript and chat records, hence two fields. -/
structure Meta where
  video_id : String
  type : String := ""
  frame_id : Option String := none
  timestamp_num : Option ℚ := none
  timestamp_str : Option String := none
  frame_number : Option Nat := none
  image_path : Option String := none
  objects : Option (List String) := none
  actions : Option (List String) := none
  scene_description : Option String := none
  chunk_index : Option Nat := none
  message_id : Option String := none
  role : Option String := none
  context_frames : Option (List String) := none
deriving DecidableEq

/-- One record of a chromadb collection: id, embedding vector, document
text and metadata. -/
structure IndexedRecord where
  id : String
  embedding : List ℚ
  document : String
  meta : Meta
deriving DecidableEq

/-- Modelled from the spec: a chromadb collection (spec sections 3 and
4.4).  A namespace of the vector index is a mapping from record id to
(vector, document, metadata) with unique ids enforced; the record list is
kept in insertion order so that ties in the distance ordering are broken
by insertion order (stable). -/
structure Collection where
  records : List IndexedRecord
deriving DecidableEq

/-- Modelled from the spec: collection.add is an idempotent upsert by id
(spec section 4.4: inserting a duplicate id overwrites). -/
def Collection.addRecord (c : Collection) (r : IndexedRecord) : Collection :=
  if c.records.any (fun x => x.id == r.id) then
    { records := c.records.map (fun x => if x.id = r.id then r else x) }
  else
    { records := c.records ++ [r] }

/-- Ascending-distance ordering on query hits (record paired with its
distance to the query vector). -/
def distLe (a b : IndexedRecord × ℚ) : Prop := a.2 ≤ b.2

instance : DecidableRel distLe := fun a b => inferInstanceAs (Decidable (a.2 ≤ b.2))

instance : IsTotal (IndexedRecord × ℚ) distLe := ⟨fun a b => le_total a.2 b.2⟩

instance : IsTrans (IndexedRecord × ℚ) distLe := ⟨fun _ _ _ h1 h2 => le_trans h1 h2⟩

/-- Modelled from the spec: collection.query (spec section 4.4) returns
the k nearest records restricted to the metadata filter (here: exact
match on video_id), ascending by distance, ties broken by insertion
order.  A stable insertion sort realizes exactly that ordering. -/
def Collection.query (dist : List ℚ → List ℚ → ℚ) (c : Collection)
    (queryEmbedding : List ℚ) (k : Nat) (video_id : String) :
    List (IndexedRecord × ℚ) :=
  let filtered := c.records.filter (fun r => decide (r.meta.video_id = video_id))
  let withDist := filtered.map (fun r => (r, dist queryEmbedding r.embedding))
  (withDist.insertionSort distLe).take k

/-- The three collections created in RAGService.__init__
(src/BackEnd/App/Services/rag_service.py): video_frames,
video_transcripts and chat_history. -/
structure RAGState where
  frames_collection : Collection
  transcripts_collection : Collection
  chat_collection : Collection
deriving DecidableEq

/-! ## String helpers shared by the service code -/

/-- Model of the Python str.join: joinWith sep l concatenates the
elements of l with sep between consecutive elements. -/
def joinWith (sep : String) : List String → String
  | [] => ""
  | [w] => w
  | w :: ws => w ++ sep ++ joinWith sep ws

/-- Accumulator of the whitespace splitter: first argument is the input
character stream, second the (reversed) current word. -/
def pySplitAux : List Char → List Char → List String
  | [], acc => if acc.isEmpty then [] else [String.mk acc.reverse]
  | c :: cs, acc =>
    if c.isWhitespace then
      if acc.isEmpty then pySplitAux cs []
      else String.mk acc.reverse :: pySplitAux cs []
    else pySplitAux cs (c :: acc)

/-- Model of the Python no-argument str.split used by
RAGService._chunk_transcript: split on runs of whitespace, discarding
empty words. -/
def pySplit (s : String) : List String := pySplitAux s.data []

/-! ## RAGService (src/BackEnd/App/Services/rag_service.py) -/

/-- Loop body of RAGService._chunk_transcript: the Python code walks the
word list in steps of chunk_size and joins each window with single
spaces.  The extra fuel argument makes the recursion structural; it is
initialized to the word count, which bounds the number of windows. -/
def _chunk_transcript_go (chunk_size : Nat) : Nat → List String → List String
  | 0, _ => []
  | fuel + 1, words =>
    match words with
    | [] => []
    | w :: ws =>
      joinWith " " ((w :: ws).take chunk_size) ::
        _chunk_transcript_go chunk_size fuel ((w :: ws).drop chunk_size)

/-- RAGService._chunk_transcript: split the transcript into windows of
chunk_size whitespace-delimited words (default 500). -/
def _chunk_transcript (transcript : String) (chunk_size : Nat := 500) : List String :=
  let words := pySplit transcript
  _chunk_transcript_go chunk_size words.length words

/-- Truthiness of an optional string, as Python evaluates it: None and
the empty string are falsy. -/
def strTruthy (o : Option String) : Bool := o.getD "" ≠ ""

/-- Two-decimal fixed formatting, modelling the f-string {x:.2f} with
half-up rounding on exact rationals.  The rounded value
floor(q * 100 + 1/2) is computed on the numerator-denominator pair with
integer operations only (the divisor 2 * den is positive, so the Int
division is the floor). -/
def format2f (q : ℚ) : String :=
  let n : Int := (200 * q.num + (q.den : Int)) / (2 * (q.den : Int))
  let m : Nat := n.natAbs
  let sign := if n < 0 then "-" else ""
  let frac := m % 100
  sign ++ toString (m / 100) ++ "." ++
    (if frac < 10 then "0" ++ toString frac else toString frac)

/-- RAGService._create_frame_description: concatenate the present
annotation fields and the timestamp with a bar separator. -/
def _create_frame_description (frame : VideoFrame) : String :=
  let p1 : List String :=
    if strTruthy frame.scene_description then
      ["Scene: " ++ frame.scene_description.getD ""] else []
  let p2 : List String :=
    if frame.objects ≠ [] then
      ["Objects: " ++ joinWith ", " frame.objects] else []
  let p3 : List String :=
    if frame.actions ≠ [] then
      ["Actions: " ++ joinWith ", " frame.actions] else []
  let p4 : List String := ["Timestamp: " ++ format2f frame.timestamp ++ " seconds"]
  joinWith " | " (p1 ++ p2 ++ p3 ++ p4)

/-- The record RAGService._add_frames stores for one frame, given the
embedding vector computed for the frame description. -/
def frameRecord (embedding : List ℚ) (frame : VideoFrame) : IndexedRecord :=
  { id := frame.id
    embedding := embedding
    document := _create_frame_description frame
    meta := { video_id := frame.video_id
              frame_id := some frame.id
              timestamp_num := some frame.timestamp
              frame_number := some frame.frame_number
              image_path := some frame.image_path
              type := "frame"
              objects := some frame.objects
              actions := some frame.actions
              scene_description := some (frame.scene_description.getD "") } }

/-- RAGService._add_frames with a total embedder: describe each frame,
embed the description and add it to the frames collection. -/
def _add_frames (embed : String → List ℚ) (st : RAGState)
    (frames : List VideoFrame) : RAGState :=
  frames.foldl
    (fun s frame =>
      let r := frameRecord (embed (_create_frame_description frame)) frame
      { s with frames_collection := s.frames_collection.addRecord r })
    st

/-- The record RAGService._add_transcript stores for one chunk. -/
def transcriptRecord (embedding : List ℚ) (video_info : VideoInfo)
    (i : Nat) (chunk : String) : IndexedRecord :=
  { id := video_info.id ++ "_transcript_" ++ toString i
    embedding := embedding
    document := chunk
    meta := { video_id := video_info.id
              chunk_index := some i
              type := "transcript"
              timestamp_str := some video_info.uploaded_at } }

/-- RAGService._add_transcript: chunk the transcript and add each chunk
to the transcripts collection under the id videoId_transcript_i. -/
def _add_transcript (embed : String → List ℚ) (st : RAGState)
    (video_info : VideoInfo) : RAGState :=
  if strTruthy video_info.transcript then
    let transcript_chunks := _chunk_transcript (video_info.transcript.getD "")
    transcript_chunks.enum.foldl
      (fun s ic =>
        let r := transcriptRecord (embed ic.2) video_info ic.1 ic.2
        { s with transcripts_collection := s.transcripts_collection.addRecord r })
      st
  else st

/-- RAGService.add_video_content: add the transcript (when truthy) and
then the frames. -/
def add_video_content (embed : String → List ℚ) (st : RAGState)
    (video_info : VideoInfo) (frames : List VideoFrame) : RAGState :=
  let st1 := if strTruthy video_info.transcript then _add_transcript embed st video_info else st
  _add_frames embed st1 frames

/-- Result of RAGService.search_relevant_content: chromadb returns the
hits as parallel arrays (ids, documents, metadatas, distances); they are
modelled as one list of record-distance pairs per collection. -/
structure SearchResults where
  frames : List (IndexedRecord × ℚ)
  transcript : List (IndexedRecord × ℚ)
deriving DecidableEq

/-- RAGService.search_relevant_content: embed the query once and query
the frames and transcripts collections with the same k, both filtered to
the requested video. -/
def search_relevant_content (embed : String → List ℚ)
    (dist : List ℚ → List ℚ → ℚ) (st : RAGState)
    (query : String) (video_id : String) (max_results : Nat) : SearchResults :=
  let query_embedding := embed query
  { frames := st.frames_collection.query dist query_embedding max_results video_id
    transcript := st.transcripts_collection.query dist query_embedding max_results video_id }

/-- One entry of the relevant_frames list built by
RAGService.get_context_for_chat. -/
structure FrameContext where
  frame_id : String
  image_path : String
  timestamp : ℚ
  description : String
  relevance_score : ℚ
deriving DecidableEq

/-- The context bundle returned by RAGService.get_context_for_chat. -/
structure ContextBundle where
  frames : List FrameContext
  transcript : String
deriving DecidableEq

/-- Descending-relevance ordering used by the Python stable sort with
reverse=True in get_context_for_chat. -/
def ctxGe (a b : FrameContext) : Prop := b.relevance_score ≤ a.relevance_score

instance : DecidableRel ctxGe := fun a b =>
  inferInstanceAs (Decidable (b.relevance_score ≤ a.relevance_score))

instance : IsTotal FrameContext ctxGe := ⟨fun a b => le_total b.relevance_score a.relevance_score⟩

instance : IsTrans FrameContext ctxGe := ⟨fun _ _ _ h1 h2 => le_trans h2 h1⟩

/-- Result-processing part of RAGService.get_context_for_chat: build the
relevance-scored frame entries (relevance = 1 - distance), sort them by
descending relevance with a stable sort, truncate to max_frames, and
join the returned transcript documents with single spaces. -/
def assemble_context (search_results : SearchResults) (max_frames : Nat) : ContextBundle :=
  let relevant_frames := search_results.frames.map
    (fun rd =>
      { frame_id := rd.1.id
        image_path := rd.1.meta.image_path.getD ""
        timestamp := rd.1.meta.timestamp_num.getD 0
        description := rd.1.document
        relevance_score := 1 - rd.2 : FrameContext })
  let sorted := relevant_frames.insertionSort ctxGe
  { frames := sorted.take max_frames
    transcript := joinWith " " (search_results.transcript.map (fun rd => rd.1.document)) }

/-- RAGService.get_context_for_chat: search with k = max_frames * 2 and
assemble the bundle from the results. -/
def get_context_for_chat (embed : String → List ℚ) (dist : List ℚ → List ℚ → ℚ)
    (st : RAGState) (query : String) (video_id : String) (max_frames : Nat) :
    ContextBundle :=
  assemble_context
    (search_relevant_content embed dist st query video_id (max_frames * 2))
    max_frames

/-- The record RAGService.add_chat_message stores for one message. -/
def chatRecord (embedding : List ℚ) (message : ChatMessage) : IndexedRecord :=
  { id := message.id
    embedding := embedding
    document := message.content
    meta := { video_id := message.video_id
              message_id := some message.id
              role := some message.role
              timestamp_str := some message.timestamp
              context_frames := some message.context_frames } }

/-- RAGService.add_chat_message: embed the message content and add it to
the chat collection under the message id. -/
def add_chat_message (embed : String → List ℚ) (st : RAGState)
    (message : ChatMessage) : RAGState :=
  { st with chat_collection :=
      st.chat_collection.addRecord (chatRecord (embed message.content) message) }

/-! ## Exception-propagation variant of frame ingestion

The Python _add_frames has no try/except: an exception raised while
embedding or adding one frame propagates to the caller, after the
records of the earlier frames were already committed to the collection.
The fallible embedder is modelled with Except; the result pairs the
state reached so far with the propagated error, if any. -/

/-- RAGService._add_frames with a fallible embedder: process the frames
in order; on the first failure stop and propagate the error, keeping the
records added before it. -/
def _add_framesE (embedE : String → Except String (List ℚ)) :
    RAGState → List VideoFrame → RAGState × Option String
  | st, [] => (st, none)
  | st, frame :: rest =>
    match embedE (_create_frame_description frame) with
    | .error e => (st, some e)
    | .ok embedding =>
      _add_framesE embedE
        { st with frames_collection :=
            st.frames_collection.addRecord (frameRecord embedding frame) }
        rest

/-! ## LLMService (src/BackEnd/App/Services/llm_service.py) -/

/-- Content and confidence of a generated response.  The processing_time
field of the Python dict is wall-clock time and is not modelled. -/
structure GenOut where
  content : String
  confidence : ℚ
deriving DecidableEq

/-- LLMService.generate_response.  The body of the try block (provider
selection and the provider calls, spec section 1 treats generation as an
opaque collaborator) is the parameter gen; a raised exception is its
error case.  The except branch returns the apologetic message with
confidence 0.0. -/
def generate_response (gen : String → ContextBundle → Bool → Except String GenOut)
    (message : String) (context : ContextBundle) (use_vision : Bool) : GenOut :=
  match gen message context use_vision with
  | .ok response => response
  | .error e =>
    { content := "I apologize, but I encountered an error: " ++ e
      confidence := 0 }

/-! ## Chat route (src/BackEnd/App/API/Routes/chat.py) -/

/-- ChatRequest from Models/video.py. -/
structure ChatRequest where
  video_id : String
  message : String
  use_vision : Bool := true
  max_context_frames : Nat := 5
deriving DecidableEq

/-- Observable outcome of one chat turn: the vector-index state, the
in-memory chat_messages_db entry for the video, and the generated
response with its context. -/
structure ChatTurnResult where
  rag : RAGState
  history : List ChatMessage
  response : GenOut
  context : ContextBundle
deriving DecidableEq

/-- chat_with_video: retrieve context, generate the response, store the
user message in the in-memory history and ingest it via
add_chat_message, then store the assistant message in the history.  The
two uuid4 ids and datetime.now are passed in as parameters. -/
def chat_with_video (embed : String → List ℚ) (dist : List ℚ → List ℚ → ℚ)
    (gen : String → ContextBundle → Bool → Except String GenOut)
    (st : RAGState) (history : List ChatMessage) (request : ChatRequest)
    (user_message_id assistant_message_id now : String) : ChatTurnResult :=
  let context := get_context_for_chat embed dist st request.message
    request.video_id request.max_context_frames
  let response := generate_response gen request.message context request.use_vision
  let chat_message : ChatMessage :=
    { id := user_message_id
      video_id := request.video_id
      role := "user"
      content := request.message
      timestamp := now
      context_frames := context.frames.map (fun f => f.frame_id) }
  let history1 := history ++ [chat_message]
  let st1 := add_chat_message embed st chat_message
  let assistant_message : ChatMessage :=
    { id := assistant_message_id
      video_id := request.video_id
      role := "assistant"
      content := response.content
      timestamp := now
      context_frames := context.frames.map (fun f => f.frame_id) }
  let history2 := history1 ++ [assistant_message]
  { rag := st1, history := history2, response := response, context := context }

/-! ## Video processing (src/BackEnd/App/Services/video_processor.py and
src/BackEnd/App/API/Routes/videos.py) -/

/-- Settings.FRAME_EXTRACTION_RATE (src/BackEnd/App/Core/config.py). -/
def FRAME_EXTRACTION_RATE : ℚ := 1

/-- Settings.MAX_FRAMES_PER_VIDEO (src/BackEnd/App/Core/config.py). -/
def MAX_FRAMES_PER_VIDEO : Nat := 300

/-- Model of the Python int() conversion on a rational: truncation
toward zero. -/
def pyInt (q : ℚ) : Int :=
  if 0 ≤ q.num then q.num / (q.den : Int) else -((-q.num) / (q.den : Int))

/-- Zero-padded four-digit rendering, modelling the f-string {n:04d}. -/
def pad4 (n : Nat) : String :=
  let s := toString n
  String.mk (List.replicate (4 - s.length) '0') ++ s

/-- Read loop of VideoProcessor._extract_frames: remaining is the number
of reads still returning a frame, frame_count and extracted_count are
the two counters of the source.  A frame is saved when frame_count is a
multiple of the interval and fewer than MAX_FRAMES_PER_VIDEO frames were
extracted.  The uuid4 id of each frame is given by the parameter mkId,
indexed by extraction order. -/
def _extract_frames_go (mkId : Nat → String) (video_id : String) (fps : ℚ)
    (frame_interval : Nat) : Nat → Nat → Nat → List VideoFrame
  | 0, _, _ => []
  | remaining + 1, frame_count, extracted_count =>
    if frame_count % frame_interval = 0 ∧ extracted_count < MAX_FRAMES_PER_VIDEO then
      { id := mkId extracted_count
        video_id := video_id
        timestamp := (frame_count : ℚ) / fps
        frame_number := extracted_count
        image_path := "/static/frames/" ++ video_id ++ "/frame_" ++
          pad4 extracted_count ++ ".jpg"
        : VideoFrame } ::
        _extract_frames_go mkId video_id fps frame_interval remaining
          (frame_count + 1) (extracted_count + 1)
    else
      _extract_frames_go mkId video_id fps frame_interval remaining
        (frame_count + 1) extracted_count

/-- VideoProcessor._extract_frames: walk all decoded frames with the
interval int(fps * FRAME_EXTRACTION_RATE).  total_read_frames is the
number of successful cap.read() calls. -/
def _extract_frames (mkId : Nat → String) (video_id : String) (fps : ℚ)
    (total_read_frames : Nat) : List VideoFrame :=
  let frame_interval := (pyInt (fps * FRAME_EXTRACTION_RATE)).toNat
  _extract_frames_go mkId video_id fps frame_interval total_read_frames 0 0

/-- VideoProcessor.get_video_frames: the source always returns the empty
list (the database load is not implemented). -/
def get_video_frames (_video_id : String) : List VideoFrame := []

/-- Ingestion step of process_video_background (Routes/videos.py): the
frames passed to add_video_content come from get_video_frames. -/
def process_video_ingest (embed : String → List ℚ) (st : RAGState)
    (video_info : VideoInfo) : RAGState :=
  add_video_content embed st video_info (get_video_frames video_info.id)

/-! ## Helper lemmas -/

/-- Every hit returned by a collection query comes from a stored record
that satisfies the video_id filter, paired with its distance. -/
theorem mem_query {dist : List ℚ → List ℚ → ℚ} {c : Collection}
    {qe : List ℚ} {k : Nat} {video_id : String} {rd : IndexedRecord × ℚ}
    (h : rd ∈ Collection.query dist c qe k video_id) :
    ∃ r ∈ c.records, r.meta.video_id = video_id ∧ rd = (r, dist qe r.embedding) := by
  unfold Collection.query at h
  have h2 : rd ∈ (c.records.filter (fun r => decide (r.meta.video_id = video_id))).map
      (fun r => (r, dist qe r.embedding)) := by
    have h1 := (List.take_sublist _ _).mem h
    rwa [List.mem_insertionSort] at h1
  obtain ⟨r, hr, heq⟩ := List.mem_map.mp h2
  obtain ⟨hrm, hdec⟩ := List.mem_filter.mp hr
  exact ⟨r, hrm, of_decide_eq_true hdec, heq.symm⟩

/-- A query scoped to a video with no records in the collection returns
no hits. -/
theorem query_nil {dist : List ℚ → List ℚ → ℚ} {c : Collection}
    {qe : List ℚ} {k : Nat} {video_id : String}
    (h : ∀ r ∈ c.records, r.meta.video_id ≠ video_id) :
    Collection.query dist c qe k video_id = [] := by
  unfold Collection.query
  have hf : c.records.filter (fun r => decide (r.meta.video_id = video_id)) = [] := by
    rw [List.filter_eq_nil_iff]
    intro r hr
    simpa using h r hr
  simp [hf, List.insertionSort]

/-! ## Claim theorems -/

/-- Claim C1: for every query, videoId and k, the frame and transcript
searches run by search_relevant_content return only records whose
metadata video_id equals the requested videoId; a record of a different
video is never returned, regardless of similarity. -/
theorem C1_namespace_isolation (embed : String → List ℚ)
    (dist : List ℚ → List ℚ → ℚ) (st : RAGState)
    (query video_id : String) (k : Nat) :
    (∀ rd ∈ (search_relevant_content embed dist st query video_id k).frames,
        rd.1.meta.video_id = video_id) ∧
    (∀ rd ∈ (search_relevant_content embed dist st query video_id k).transcript,
        rd.1.meta.video_id = video_id) := by
  constructor <;>
    · intro rd h
      simp only [search_relevant_content] at h
      obtain ⟨r, _, hvid, heq⟩ := mem_query h
      rw [heq]
      exact hvid

def wEmbed : String → List ℚ := fun _ => [1]

def wDist : List ℚ → List ℚ → ℚ := fun _ _ => 0

def wRecA : IndexedRecord :=
  { id := "fA", embedding := [1], document := "docA", meta := { video_id := "A" } }

def wRecB : IndexedRecord :=
  { id := "fB", embedding := [1], document := "docB", meta := { video_id := "B" } }

def wState : RAGState :=
  { frames_collection := { records := [wRecA, wRecB] }
    transcripts_collection := { records := [] }
    chat_collection := { records := [] } }

/-- Witness for C1: on a store holding records of videos A and B, the
hit returned for the query scoped to A carries video_id A. -/
theorem C1_witness :
    (wRecA, (0 : ℚ)) ∈ (search_relevant_content wEmbed wDist wState "q" "A" 10).frames ∧
    (wRecA, (0 : ℚ)).1.meta.video_id = "A" :=
  ⟨by decide,
   (C1_namespace_isolation wEmbed wDist wState "q" "A" 10).1 (wRecA, 0) (by decide)⟩

/-- Claim C4: get_context_for_chat returns at most max_frames frame
entries whatever the state holds, and it is exactly the assembly of the
search results fetched with k = 2 * max_frames. -/
theorem C4_bounded_context (embed : String → List ℚ)
    (dist : List ℚ → List ℚ → ℚ) (st : RAGState)
    (query video_id : String) (max_frames : Nat) :
    (get_context_for_chat embed dist st query video_id max_frames).frames.length
        ≤ max_frames ∧
    get_context_for_chat embed dist st query video_id max_frames =
      assemble_context
        (search_relevant_content embed dist st query video_id (2 * max_frames))
        max_frames := by
  constructor
  · simp only [get_context_for_chat, assemble_context]
    exact List.length_take_le _ _
  · rw [get_context_for_chat, Nat.mul_comm]

/-- Claim C9: whenever the generation collaborator fails, the caller of
generate_response receives a well-formed result with confidence 0.0 and
the apologetic content string; the failure never propagates. -/
theorem C9_generation_failure_degrades
    (gen : String → ContextBundle → Bool → Except String GenOut)
    (message : String) (context : ContextBundle) (use_vision : Bool) (e : String)
    (h : gen message context use_vision = .error e) :
    generate_response gen message context use_vision =
      { content := "I apologize, but I encountered an error: " ++ e
        confidence := 0 } := by
  simp [generate_response, h]

/-- Witness for C9: a collaborator that always raises yields the
apologetic zero-confidence result. -/
theorem C9_witness :
    generate_response (fun _ _ _ => .error "boom") "m" { frames := [], transcript := "" } true =
      { content := "I apologize, but I encountered an error: boom", confidence := 0 } :=
  C9_generation_failure_degrades (fun _ _ _ => .error "boom") "m"
    { frames := [], transcript := "" } true "boom" rfl

/-- A fold that leaves the frames collection of the state untouched at
every step leaves it untouched overall. -/
theorem foldl_frames_eq {β : Type} (f : RAGState → β → RAGState)
    (hf : ∀ s x, (f s x).frames_collection = s.frames_collection) :
    ∀ (l : List β) (st : RAGState), (l.foldl f st).frames_collection = st.frames_collection := by
  intro l
  induction l with
  | nil => intro st; rfl
  | cons x xs ih => intro st; rw [List.foldl_cons, ih, hf]

/-- Adding a transcript never touches the frames collection. -/
theorem add_transcript_frames_eq (embed : String → List ℚ) (st : RAGState)
    (video_info : VideoInfo) :
    (_add_transcript embed st video_info).frames_collection = st.frames_collection := by
  unfold _add_transcript
  split
  · apply foldl_frames_eq
    intro s x
    rfl
  · rfl

/-- Claim C2: the upload-and-process flow hands add_video_content the
result of get_video_frames, which is always empty, so it adds nothing to
the frames collection; a frame query scoped to the processed video then
returns no results (the fresh uuid4 video id matches no pre-existing
record). -/
theorem C2_upload_flow_adds_no_frames (embed : String → List ℚ)
    (dist : List ℚ → List ℚ → ℚ) (st : RAGState) (video_info : VideoInfo)
    (qe : List ℚ) (k : Nat)
    (h : ∀ r ∈ st.frames_collection.records, r.meta.video_id ≠ video_info.id) :
    get_video_frames video_info.id = [] ∧
    (process_video_ingest embed st video_info).frames_collection = st.frames_collection ∧
    Collection.query dist (process_video_ingest embed st video_info).frames_collection
      qe k video_info.id = [] := by
  have heq : (process_video_ingest embed st video_info).frames_collection
      = st.frames_collection := by
    show (add_video_content embed st video_info []).frames_collection = _
    unfold add_video_content _add_frames
    rw [List.foldl_nil]
    split
    · exact add_transcript_frames_eq embed st video_info
    · rfl
  refine ⟨rfl, heq, ?_⟩
  rw [heq]
  exact query_nil h

/-- Witness for C2: processing a video with a transcript on a store that
already holds a frame of another video leaves the frames collection
unchanged and frame-empty for the new video. -/
theorem C2_witness :
    get_video_frames "V" = [] ∧
    (process_video_ingest wEmbed wState
        { id := "V", transcript := some "hello world" }).frames_collection
      = wState.frames_collection ∧
    Collection.query wDist
      (process_video_ingest wEmbed wState
        { id := "V", transcript := some "hello world" }).frames_collection
      [1] 5 "V" = [] :=
  C2_upload_flow_adds_no_frames wEmbed wDist wState
    { id := "V", transcript := some "hello world" } [1] 5 (by decide)

/-- Claim C3 counterexample: the code computes relevance = 1 - distance
with no clamping, and cosine distance reaches 2 on opposite unit
vectors, so a returned relevance score can be negative.  cexDist is the
cosine distance 1 - cos(a, b), written for unit vectors (where the
cosine is the dot product); the stored record embeds to the unit vector
opposite to the query embedding. -/
def dotQ : List ℚ → List ℚ → ℚ
  | a :: as, b :: bs => a * b + dotQ as bs
  | _, _ => 0

def cexDist : List ℚ → List ℚ → ℚ := fun a b => 1 - dotQ a b

def cexEmbed : String → List ℚ := fun _ => [1, 0]

def cexRec : IndexedRecord :=
  { id := "f1", embedding := [-1, 0], document := "d1", meta := { video_id := "v" } }

def cexState : RAGState :=
  { frames_collection := { records := [cexRec] }
    transcripts_collection := { records := [] }
    chat_collection := { records := [] } }

/-- Evaluation of the counterexample run: the single stored frame comes
back at distance 2 and hence with relevance score -1. -/
theorem cex_bundle_eval :
    get_context_for_chat cexEmbed cexDist cexState "q" "v" 5 =
      { frames := [{ frame_id := "f1", image_path := "", timestamp := 0
                     description := "d1", relevance_score := -1 }]
        transcript := "" } := by
  norm_num [get_context_for_chat, assemble_context, search_relevant_content,
    Collection.query, cexState, cexRec, cexEmbed, cexDist, dotQ,
    List.insertionSort, List.orderedInsert, joinWith]

/-- Counterexample for C3: a frame hit at cosine distance 2 is returned
with relevance score -1, outside [0, 1]. -/
theorem C3_counterexample :
    (get_context_for_chat cexEmbed cexDist cexState "q" "v" 5).frames.map
        (fun f => f.relevance_score) = [-1] ∧
    ¬ (∀ f ∈ (get_context_for_chat cexEmbed cexDist cexState "q" "v" 5).frames,
        0 ≤ f.relevance_score ∧ f.relevance_score ≤ 1) := by
  rw [cex_bundle_eval]
  constructor
  · rfl
  · intro h
    have := (h { frame_id := "f1", image_path := "", timestamp := 0
                 description := "d1", relevance_score := -1 } (by simp)).1
    norm_num at this

/-- Claim C3 as amended: when every distance reported by the index lies
in [0, 2] (the range of cosine distance), every relevance score returned
by get_context_for_chat lies in [-1, 1] (the code never clamps, so
scores are negative exactly when the distance exceeds 1), and the scores
are non-increasing along the returned ordered list. -/
theorem C3_relevance_scores (embed : String → List ℚ)
    (dist : List ℚ → List ℚ → ℚ) (st : RAGState)
    (query video_id : String) (max_frames : Nat)
    (hdist : ∀ a b, 0 ≤ dist a b ∧ dist a b ≤ 2) :
    (∀ f ∈ (get_context_for_chat embed dist st query video_id max_frames).frames,
        -1 ≤ f.relevance_score ∧ f.relevance_score ≤ 1) ∧
    List.Pairwise (fun a b => b ≤ a)
      ((get_context_for_chat embed dist st query video_id max_frames).frames.map
        (fun f => f.relevance_score)) := by
  constructor
  · intro f hf
    simp only [get_context_for_chat, assemble_context] at hf
    have h1 := (List.take_sublist _ _).mem hf
    rw [List.mem_insertionSort] at h1
    obtain ⟨rd, hrd, heq⟩ := List.mem_map.mp h1
    obtain ⟨r, _, _, hrd'⟩ := mem_query hrd
    have hb := hdist (embed query) r.embedding
    rw [← heq]
    simp only [hrd']
    constructor <;> [linarith [hb.2]; linarith [hb.1]]
  · rw [List.pairwise_map]
    simp only [get_context_for_chat, assemble_context]
    have hs := List.sorted_insertionSort ctxGe
      ((search_relevant_content embed dist st query video_id (max_frames * 2)).frames.map
        (fun rd =>
          { frame_id := rd.1.id
            image_path := rd.1.meta.image_path.getD ""
            timestamp := rd.1.meta.timestamp_num.getD 0
            description := rd.1.document
            relevance_score := 1 - rd.2 : FrameContext }))
    exact List.Pairwise.sublist (List.take_sublist _ _) hs

def cDist0 : List ℚ → List ℚ → ℚ := fun _ _ => 0

def cF : FrameContext :=
  { frame_id := "fA", image_path := "", timestamp := 0
    description := "docA", relevance_score := 1 }

/-- Witness for C3 (amended): with the all-zero distance, the returned
hit for video A has relevance score 1, inside [-1, 1]. -/
theorem C3_witness :
    -1 ≤ cF.relevance_score ∧ cF.relevance_score ≤ 1 :=
  (C3_relevance_scores wEmbed cDist0 wState "q" "A" 5
      (by intro a b; constructor <;> simp [cDist0])).1 cF
    (by simp [get_context_for_chat, assemble_context, search_relevant_content,
          Collection.query, wState, wRecA, wRecB, wEmbed, cDist0, cF,
          List.insertionSort, List.orderedInsert, distLe])

/-! ## Chunking lemmas (claim C5) -/

/-- joinWith on a cons with a nonempty tail steps once. -/
theorem joinWith_cons_of_ne (sep a : String) {l : List String} (h : l ≠ []) :
    joinWith sep (a :: l) = a ++ sep ++ joinWith sep l := by
  cases l with
  | nil => exact absurd rfl h
  | cons b bs => rfl

/-- joinWith distributes over append of nonempty lists. -/
theorem joinWith_append (sep : String) (l₁ l₂ : List String)
    (h₁ : l₁ ≠ []) (h₂ : l₂ ≠ []) :
    joinWith sep (l₁ ++ l₂) = joinWith sep l₁ ++ sep ++ joinWith sep l₂ := by
  induction l₁ with
  | nil => exact absurd rfl h₁
  | cons a as ih =>
    cases as with
    | nil =>
      rw [List.singleton_append, joinWith_cons_of_ne sep a h₂]
      rfl
    | cons b bs =>
      have hne : (b :: bs : List String) ≠ [] := by simp
      have happ : ((b :: bs : List String) ++ l₂) ≠ [] := by simp
      rw [List.cons_append, joinWith_cons_of_ne sep a happ, ih hne,
        joinWith_cons_of_ne sep a hne]
      simp [String.append_assoc]

/-- The chunking loop emits ceil(wordCount / chunk_size) chunks, given
enough fuel. -/
theorem chunk_go_length (chunk_size : Nat) (hW : 0 < chunk_size) :
    ∀ (fuel : Nat) (words : List String), words.length ≤ fuel →
      (_chunk_transcript_go chunk_size fuel words).length
        = (words.length + chunk_size - 1) / chunk_size := by
  intro fuel
  induction fuel with
  | zero =>
    intro words h
    have hw : words = [] := List.length_eq_zero.mp (Nat.le_zero.mp h)
    subst hw
    rw [_chunk_transcript_go]
    simp only [List.length_nil, Nat.zero_add]
    exact (Nat.div_eq_of_lt (by omega)).symm
  | succ n ih =>
    intro words h
    cases words with
    | nil =>
      rw [_chunk_transcript_go]
      simp only [List.length_nil, Nat.zero_add]
      exact (Nat.div_eq_of_lt (by omega)).symm
    | cons w ws =>
      simp only [List.length_cons] at h
      rw [_chunk_transcript_go]
      simp only [List.length_cons]
      rw [ih _ (by simp only [List.length_drop, List.length_cons]; omega),
        List.length_drop]
      simp only [List.length_cons]
      rcases le_or_lt (ws.length + 1) chunk_size with hle | hlt
      · have h1 : ws.length + 1 - chunk_size = 0 := by omega
        have h2 : ws.length + 1 + chunk_size - 1 = (ws.length + 1 - 1) + chunk_size := by
          omega
        rw [h1, h2, Nat.div_eq_of_lt (show 0 + chunk_size - 1 < chunk_size by omega),
          Nat.add_div_right _ hW,
          Nat.div_eq_of_lt (show ws.length + 1 - 1 < chunk_size by omega)]
      · have h1 : ws.length + 1 - chunk_size + chunk_size - 1 = ws.length + 1 - 1 := by
          omega
        have h2 : ws.length + 1 + chunk_size - 1 = (ws.length + 1 - 1) + chunk_size := by
          omega
        rw [h1, h2, Nat.add_div_right _ hW]

/-- Chunk i of the chunking loop is the joined window of words
[i * chunk_size, (i + 1) * chunk_size), given enough fuel. -/
theorem chunk_go_getElem (chunk_size : Nat) (hW : 0 < chunk_size) :
    ∀ (fuel : Nat) (words : List String), words.length ≤ fuel →
      ∀ i, i < (_chunk_transcript_go chunk_size fuel words).length →
        (_chunk_transcript_go chunk_size fuel words)[i]?
          = some (joinWith " " ((words.drop (i * chunk_size)).take chunk_size)) := by
  intro fuel
  induction fuel with
  | zero =>
    intro words hle i h
    have hw : words = [] := List.length_eq_zero.mp (Nat.le_zero.mp hle)
    subst hw
    rw [_chunk_transcript_go] at h
    simp at h
  | succ n ih =>
    intro words hle i h
    cases words with
    | nil =>
      rw [_chunk_transcript_go] at h
      simp at h
    | cons w ws =>
      simp only [List.length_cons] at hle
      cases i with
      | zero => simp [_chunk_transcript_go]
      | succ i =>
        rw [_chunk_transcript_go] at h ⊢
        simp only [List.length_cons] at h
        rw [List.getElem?_cons_succ,
          ih _ (by simp only [List.length_drop, List.length_cons]; omega) i
            (by omega),
          List.drop_drop]
        congr 4
        ring

/-- Joining the emitted chunks with single spaces reproduces the joined
word sequence, given enough fuel. -/
theorem chunk_go_join (chunk_size : Nat) (hW : 0 < chunk_size) :
    ∀ (fuel : Nat) (words : List String), words.length ≤ fuel →
      joinWith " " (_chunk_transcript_go chunk_size fuel words) = joinWith " " words := by
  intro fuel
  induction fuel with
  | zero =>
    intro words hle
    have hw : words = [] := List.length_eq_zero.mp (Nat.le_zero.mp hle)
    subst hw
    rfl
  | succ n ih =>
    intro words hle
    cases words with
    | nil => rfl
    | cons w ws =>
      simp only [List.length_cons] at hle
      rw [_chunk_transcript_go]
      by_cases hd : (w :: ws).drop chunk_size = []
      · have hrest : _chunk_transcript_go chunk_size n ((w :: ws).drop chunk_size) = [] := by
          rw [hd]; cases n <;> rfl
        have htake : (w :: ws).take chunk_size = w :: ws :=
          List.take_of_length_le (by
            have := List.drop_eq_nil_iff.mp hd
            omega)
        rw [hrest, htake]
        rfl
      · have hlen : ((w :: ws).drop chunk_size).length ≤ n := by
          simp only [List.length_drop, List.length_cons]; omega
        have hrest : _chunk_transcript_go chunk_size n ((w :: ws).drop chunk_size) ≠ [] := by
          cases n with
          | zero =>
            exact absurd (List.length_eq_zero.mp (Nat.le_zero.mp hlen)) hd
          | succ m =>
            obtain ⟨d, ds, hds⟩ := List.exists_cons_of_ne_nil hd
            rw [hds, _chunk_transcript_go]
            simp
        have htake : (w :: ws).take chunk_size ≠ [] := by
          cases chunk_size with
          | zero => omega
          | succ m => simp
        rw [joinWith_cons_of_ne _ _ hrest, ih _ hlen,
          ← joinWith_append " " _ _ htake hd, List.take_append_drop]

/-- Claim C5: _chunk_transcript splits the transcript on whitespace into
word windows, where chunk i holds the words [i * W, (i + 1) * W);
joining the chunks with single spaces reproduces the whitespace-
normalized word sequence; the chunk count is ceil(wordCount / W); and
empty input yields the empty sequence. -/
theorem C5_chunk_determinism (transcript : String) (chunk_size : Nat)
    (hW : 0 < chunk_size) :
    (_chunk_transcript transcript chunk_size).length
        = ((pySplit transcript).length + chunk_size - 1) / chunk_size ∧
    (∀ i (h : i < (_chunk_transcript transcript chunk_size).length),
        (_chunk_transcript transcript chunk_size).get ⟨i, h⟩
          = joinWith " " (((pySplit transcript).drop (i * chunk_size)).take chunk_size)) ∧
    joinWith " " (_chunk_transcript transcript chunk_size)
        = joinWith " " (pySplit transcript) ∧
    _chunk_transcript "" chunk_size = [] := by
  refine ⟨?_, ?_, ?_, ?_⟩
  · exact chunk_go_length chunk_size hW _ _ le_rfl
  · intro i h
    have h' : i < (_chunk_transcript_go chunk_size
        (pySplit transcript).length (pySplit transcript)).length := h
    have h1 := chunk_go_getElem chunk_size hW _ _ le_rfl i h'
    rw [List.getElem?_eq_getElem h'] at h1
    rw [List.get_eq_getElem]
    exact Option.some.inj h1
  · exact chunk_go_join chunk_size hW _ _ le_rfl
  · rfl

/-- Witness for C5: the six-word transcript with window 3 yields two
chunks whose space-join restores the normalized word sequence. -/
theorem C5_witness :
    0 < 3 ∧
    (_chunk_transcript "the cat  sat on the mat" 3).length
      = ((pySplit "the cat  sat on the mat").length + 3 - 1) / 3 ∧
    _chunk_transcript "the cat  sat on the mat" 3 = ["the cat sat", "on the mat"] :=
  ⟨by decide,
   (C5_chunk_determinism "the cat  sat on the mat" 3 (by decide)).1,
   by decide⟩

/-! ## Upsert lemmas (claim C6) -/

/-- Upserting preserves uniqueness of record ids. -/
theorem addRecord_nodup {c : Collection} {r : IndexedRecord}
    (h : (c.records.map (fun x => x.id)).Nodup) :
    ((c.addRecord r).records.map (fun x => x.id)).Nodup := by
  unfold Collection.addRecord
  split
  · have heq : (c.records.map (fun x => if x.id = r.id then r else x)).map
        (fun x => x.id) = c.records.map (fun x => x.id) := by
      rw [List.map_map]
      apply List.map_congr_left
      intro x _
      simp only [Function.comp_apply]
      split
      · rename_i hxx
        rw [hxx]
      · rfl
    simpa [heq] using h
  · rename_i hany
    have hnot : r.id ∉ c.records.map (fun x => x.id) := by
      intro hmem
      obtain ⟨x, hx, hxid⟩ := List.mem_map.mp hmem
      exact hany (List.any_eq_true.mpr ⟨x, hx, by simp [hxid]⟩)
    simp only [List.map_append, List.map_cons, List.map_nil]
    exact List.Nodup.append h (List.nodup_singleton _)
      (by simpa [List.disjoint_singleton] using hnot)

/-- Replacing the records that carry a given id in a duplicate-free
record list leaves exactly the replacement under that id. -/
theorem filter_upsert_list :
    ∀ (l : List IndexedRecord) (r y : IndexedRecord),
      (l.map (fun x => x.id)).Nodup → y ∈ l → y.id = r.id →
      (l.map (fun x => if x.id = r.id then r else x)).filter
          (fun x => decide (x.id = r.id)) = [r] := by
  intro l
  induction l with
  | nil =>
    intro r y _ hy _
    simp at hy
  | cons a as ih =>
    intro r y hnd hy hyid
    have hnd' : (as.map (fun x => x.id)).Nodup := (List.nodup_cons.mp hnd).2
    by_cases ha : a.id = r.id
    · have hnotmem : a.id ∉ as.map (fun x => x.id) := by
        have h0 := hnd
        simp only [List.map_cons, List.nodup_cons] at h0
        exact h0.1
      have hrest : ∀ x ∈ as, ¬ x.id = r.id := by
        intro x hx hxid
        apply hnotmem
        rw [ha, ← hxid]
        exact List.mem_map_of_mem _ hx
      have hmap : as.map (fun x => if x.id = r.id then r else x) = as := by
        conv_rhs => rw [← List.map_id as]
        apply List.map_congr_left
        intro x hx
        simp [hrest x hx]
      simp only [List.map_cons, if_pos ha, hmap]
      rw [List.filter_cons_of_pos (by simp)]
      rw [List.filter_eq_nil_iff.mpr (by intro x hx; simpa using hrest x hx)]
    · rcases List.mem_cons.mp hy with hya | hyas
      · exact absurd (hya ▸ hyid) ha
      · simp only [List.map_cons, if_neg ha]
        rw [List.filter_cons_of_neg (by simpa using ha)]
        exact ih r y hnd' hyas hyid

/-- After an upsert, the records carrying the upserted id are exactly
the new record. -/
theorem addRecord_filter_id {c : Collection} {r : IndexedRecord}
    (h : (c.records.map (fun x => x.id)).Nodup) :
    (c.addRecord r).records.filter (fun x => decide (x.id = r.id)) = [r] := by
  unfold Collection.addRecord
  split
  · rename_i hany
    obtain ⟨y, hy, hyid⟩ := List.any_eq_true.mp hany
    exact filter_upsert_list c.records r y h hy (by simpa using hyid)
  · rename_i hany
    have hnone : ∀ x ∈ c.records, ¬ x.id = r.id := by
      intro x hx hxid
      exact hany (List.any_eq_true.mpr ⟨x, hx, by simp [hxid]⟩)
    rw [List.filter_append,
      List.filter_eq_nil_iff.mpr (by intro x hx; simpa using hnone x hx),
      List.filter_cons_of_pos (by simp), List.filter_nil]
    rfl

/-- Claim C6: adding twice under the same record id leaves exactly one
record with that id, holding the content of the second call. -/
theorem C6_idempotent_upsert (c : Collection) (r r' : IndexedRecord)
    (hnd : (c.records.map (fun x => x.id)).Nodup) (_hid : r.id = r'.id) :
    ((c.addRecord r).addRecord r').records.filter (fun x => decide (x.id = r'.id))
      = [r'] :=
  addRecord_filter_id (addRecord_nodup hnd)

def c6r : IndexedRecord :=
  { id := "f1", embedding := [1], document := "first description"
    meta := { video_id := "v" } }

def c6r' : IndexedRecord :=
  { id := "f1", embedding := [2], document := "second description"
    meta := { video_id := "v" } }

/-- Witness for C6: adding f1 twice with different documents leaves only
the second document under the id f1. -/
theorem C6_witness :
    (((⟨[]⟩ : Collection).addRecord c6r).addRecord c6r').records.filter
        (fun x => decide (x.id = c6r'.id)) = [c6r'] :=
  C6_idempotent_upsert ⟨[]⟩ c6r c6r' (by decide) (by decide)

/-! ## Chat-turn ingestion (claim C7) -/

/-- The upserted record is present after an upsert. -/
theorem mem_addRecord_self (c : Collection) (r : IndexedRecord) :
    r ∈ (c.addRecord r).records := by
  unfold Collection.addRecord
  split
  · rename_i hany
    obtain ⟨y, hy, hid⟩ := List.any_eq_true.mp hany
    exact List.mem_map.mpr ⟨y, hy, by simp [show y.id = r.id from by simpa using hid]⟩
  · simp

/-- Every record present after an upsert is the new record or was
already stored. -/
theorem mem_addRecord_elim {c : Collection} {r x : IndexedRecord}
    (h : x ∈ (c.addRecord r).records) : x = r ∨ x ∈ c.records := by
  unfold Collection.addRecord at h
  split at h
  · obtain ⟨y, hy, hyeq⟩ := List.mem_map.mp h
    by_cases hid : y.id = r.id
    · rw [if_pos hid] at hyeq
      exact Or.inl hyeq.symm
    · rw [if_neg hid] at hyeq
      exact Or.inr (hyeq ▸ hy)
  · rcases List.mem_append.mp h with h' | h'
    · exact Or.inr h'
    · exact Or.inl (List.mem_singleton.mp h')

def c7Gen : String → ContextBundle → Bool → Except String GenOut :=
  fun _ _ _ => .ok { content := "resp", confidence := 1 }

def st0 : RAGState :=
  { frames_collection := { records := [] }
    transcripts_collection := { records := [] }
    chat_collection := { records := [] } }

def c7Req : ChatRequest := { video_id := "v", message := "hi" }

def c7Run : ChatTurnResult :=
  chat_with_video wEmbed wDist c7Gen st0 [] c7Req "um1" "am1" "t0"

/-- Counterexample for C7: after one chat turn the chat collection holds
a record for the user message id but none for the assistant message id;
the assistant turn is never ingested. -/
theorem C7_counterexample :
    "um1" ∈ c7Run.rag.chat_collection.records.map (fun rec => rec.id) ∧
    ¬ "am1" ∈ c7Run.rag.chat_collection.records.map (fun rec => rec.id) := by
  constructor
  · decide
  · decide

/-- Claim C7 as amended: for every chat turn handled by chat_with_video,
the user message is ingested into the chat namespace via
add_chat_message, while the assistant message is only appended to the
in-memory history and is never ingested. -/
theorem C7_only_user_ingested (embed : String → List ℚ)
    (dist : List ℚ → List ℚ → ℚ)
    (gen : String → ContextBundle → Bool → Except String GenOut)
    (st : RAGState) (history : List ChatMessage) (request : ChatRequest)
    (umid amid now : String)
    (h1 : amid ≠ umid)
    (h2 : ∀ rec ∈ st.chat_collection.records, rec.id ≠ amid) :
    (∃ rec ∈ (chat_with_video embed dist gen st history request
          umid amid now).rag.chat_collection.records,
        rec.id = umid ∧ rec.meta.role = some "user" ∧
        rec.document = request.message) ∧
    (∀ rec ∈ (chat_with_video embed dist gen st history request
        umid amid now).rag.chat_collection.records, rec.id ≠ amid) ∧
    (chat_with_video embed dist gen st history request
        umid amid now).history.map (fun m => m.role)
      = history.map (fun m => m.role) ++ ["user", "assistant"] := by
  refine ⟨⟨_, mem_addRecord_self _ _, rfl, rfl, rfl⟩, ?_, ?_⟩
  · intro rec hrec
    rcases mem_addRecord_elim hrec with heq | hmem
    · rw [heq]
      exact fun hc => h1 hc.symm
    · exact h2 rec hmem
  · simp [chat_with_video]

def c7UserRec : IndexedRecord :=
  chatRecord (wEmbed "hi")
    { id := "um1", video_id := "v", role := "user", content := "hi"
      timestamp := "t0", context_frames := [] }

/-- Witness for C7 (amended): in the concrete run the ingested user
record does not carry the assistant message id. -/
theorem C7_witness :
    c7UserRec ∈ c7Run.rag.chat_collection.records ∧ c7UserRec.id ≠ "am1" :=
  ⟨by decide,
   (C7_only_user_ingested wEmbed wDist c7Gen st0 [] c7Req "um1" "am1" "t0"
       (by decide) (by intro rec hrec; simp [st0] at hrec)).2.1
     c7UserRec (by decide)⟩

/-! ## Ingestion abort on failure (claim C8) -/

def c8f1 : VideoFrame :=
  { id := "f1", video_id := "v", timestamp := 1, frame_number := 0, image_path := "p1" }

def c8f2 : VideoFrame :=
  { id := "f2", video_id := "v", timestamp := 2, frame_number := 1, image_path := "p2" }

/-- An embedder that raises exactly on the description of c8f1. -/
def c8embedE : String → Except String (List ℚ) :=
  fun s => if s = _create_frame_description c8f1 then .error "boom" else .ok [1]

/-- Counterexample for C8: with the failing first frame, the second
frame is never added to the frames collection, and the error
propagates. -/
theorem C8_counterexample :
    ¬ "f2" ∈ ((_add_framesE c8embedE st0 [c8f1, c8f2]).1.frames_collection.records.map
        (fun r => r.id)) ∧
    (_add_framesE c8embedE st0 [c8f1, c8f2]).2 = some "boom" := by
  constructor
  · decide
  · decide

/-- Claim C8 as amended: a failure to embed or add one frame aborts the
ingestion of all frames after it: the frames before the failing one are
added, the loop stops at the failure, and the error propagates to the
caller (which marks the whole video as failed). -/
theorem C8_failure_aborts (embedE : String → Except String (List ℚ))
    (st : RAGState) (pre : List VideoFrame) (f : VideoFrame)
    (post : List VideoFrame) (e : String)
    (hpre : ∀ g ∈ pre, ∃ v, embedE (_create_frame_description g) = .ok v)
    (hf : embedE (_create_frame_description f) = .error e) :
    _add_framesE embedE st (pre ++ f :: post)
      = ((_add_framesE embedE st pre).1, some e) := by
  induction pre generalizing st with
  | nil => simp [_add_framesE, hf]
  | cons g gs ih =>
    obtain ⟨v, hv⟩ := hpre g (List.mem_cons_self g gs)
    simp only [List.cons_append, _add_framesE, hv]
    exact ih _ (fun g' hg' => hpre g' (List.mem_cons_of_mem _ hg'))

/-- Witness for C8 (amended): with the failing frame second, the first
frame is ingested and the loop then stops with the error. -/
theorem C8_witness :
    _add_framesE c8embedE st0 [c8f2, c8f1]
      = ((_add_framesE c8embedE st0 [c8f2]).1, some "boom") :=
  C8_failure_aborts c8embedE st0 [c8f2] c8f1 [] "boom"
    (by
      intro g hg
      rw [List.mem_singleton] at hg
      subst hg
      exact ⟨[1], rfl⟩)
    rfl

/-! ## Frame extraction (claim C10) -/

/-- A rational whose Python int() conversion is at least 1 is itself at
least 1. -/
theorem one_le_of_pyInt {q : ℚ} (h : 1 ≤ pyInt q) : 1 ≤ q := by
  unfold pyInt at h
  have hden : (0 : Int) < (q.den : Int) := by exact_mod_cast q.den_pos
  split at h
  · have h2 : 1 * (q.den : Int) ≤ q.num := (Int.le_ediv_iff_mul_le hden).mp h
    rw [one_mul] at h2
    rw [show q = (q.num : ℚ) / (q.den : ℚ) from (Rat.num_div_den q).symm]
    rw [le_div_iff₀ (by exact_mod_cast hden)]
    rw [one_mul]
    exact_mod_cast h2
  · exfalso
    rename_i hnum
    have hpos : 0 ≤ (-q.num) / (q.den : Int) := Int.ediv_nonneg (by omega) (by omega)
    omega

/-- The extraction loop never emits more than the frame cap minus the
frames already extracted. -/
theorem extract_go_length (mkId : Nat → String) (video_id : String) (fps : ℚ)
    (frame_interval : Nat) :
    ∀ (remaining frame_count extracted_count : Nat),
      (_extract_frames_go mkId video_id fps frame_interval remaining
          frame_count extracted_count).length
        ≤ MAX_FRAMES_PER_VIDEO - extracted_count := by
  intro remaining
  induction remaining with
  | zero =>
    intro fc ec
    simp [_extract_frames_go]
  | succ n ih =>
    intro fc ec
    rw [_extract_frames_go]
    split
    · rename_i hcond
      simp only [List.length_cons]
      have h1 := ih (fc + 1) (ec + 1)
      omega
    · exact ih (fc + 1) ec

/-- The extraction loop numbers the emitted frames consecutively from
the current extracted count. -/
theorem extract_go_frame_number (mkId : Nat → String) (video_id : String)
    (fps : ℚ) (frame_interval : Nat) :
    ∀ (remaining frame_count extracted_count i : Nat),
      i < (_extract_frames_go mkId video_id fps frame_interval remaining
          frame_count extracted_count).length →
      ((_extract_frames_go mkId video_id fps frame_interval remaining
          frame_count extracted_count)[i]?).map (fun f => f.frame_number)
        = some (extracted_count + i) := by
  intro remaining
  induction remaining with
  | zero =>
    intro fc ec i h
    rw [_extract_frames_go] at h
    simp at h
  | succ n ih =>
    intro fc ec i h
    rw [_extract_frames_go] at h ⊢
    split
    · rename_i hcond
      rw [if_pos hcond] at h
      cases i with
      | zero => simp
      | succ i =>
        simp only [List.length_cons] at h
        rw [List.getElem?_cons_succ, ih (fc + 1) (ec + 1) i (by omega)]
        congr 1
        omega
    · rename_i hcond
      rw [if_neg hcond] at h
      exact ih (fc + 1) ec i h

/-- The extraction loop emits strictly increasing timestamps, all at
least the current read position divided by the frame rate. -/
theorem extract_go_timestamps (mkId : Nat → String) (video_id : String)
    (fps : ℚ) (frame_interval : Nat) (hfps : 0 < fps) :
    ∀ (remaining frame_count extracted_count : Nat),
      List.Pairwise (fun a b => a.timestamp < b.timestamp)
        (_extract_frames_go mkId video_id fps frame_interval remaining
          frame_count extracted_count) ∧
      ∀ f ∈ _extract_frames_go mkId video_id fps frame_interval remaining
          frame_count extracted_count,
        (frame_count : ℚ) / fps ≤ f.timestamp := by
  intro remaining
  induction remaining with
  | zero =>
    intro fc ec
    simp [_extract_frames_go]
  | succ n ih =>
    intro fc ec
    have hstep : (fc : ℚ) / fps < ((fc + 1 : Nat) : ℚ) / fps := by
      apply div_lt_div_of_pos_right _ hfps
      exact_mod_cast Nat.lt_succ_self fc
    rw [_extract_frames_go]
    split
    · rename_i hcond
      obtain ⟨hp, hlb⟩ := ih (fc + 1) (ec + 1)
      constructor
      · refine List.Pairwise.cons ?_ hp
        intro b hb
        exact lt_of_lt_of_le hstep (hlb b hb)
      · intro f hf
        rcases List.mem_cons.mp hf with hfe | hfm
        · rw [hfe]
        · exact le_trans (le_of_lt hstep) (hlb f hfm)
    · obtain ⟨hp, hlb⟩ := ih (fc + 1) ec
      refine ⟨hp, ?_⟩
      intro f hf
      exact le_trans (le_of_lt hstep) (hlb f hf)

/-- Claim C10: when int(fps * FRAME_EXTRACTION_RATE) is at least 1,
_extract_frames returns at most MAX_FRAMES_PER_VIDEO = 300 frames, the
i-th extracted frame has frame_number i, and the timestamps are strictly
increasing. -/
theorem C10_extract_frames (mkId : Nat → String) (video_id : String)
    (fps : ℚ) (total_read_frames : Nat)
    (h : 1 ≤ pyInt (fps * FRAME_EXTRACTION_RATE)) :
    (_extract_frames mkId video_id fps total_read_frames).length ≤ 300 ∧
    (∀ i (hi : i < (_extract_frames mkId video_id fps total_read_frames).length),
      ((_extract_frames mkId video_id fps total_read_frames).get ⟨i, hi⟩).frame_number
        = i) ∧
    List.Pairwise (fun a b => a.timestamp < b.timestamp)
      (_extract_frames mkId video_id fps total_read_frames) := by
  have hfps : 0 < fps := by
    have h1 : (1 : ℚ) ≤ fps * FRAME_EXTRACTION_RATE := one_le_of_pyInt h
    rw [FRAME_EXTRACTION_RATE, mul_one] at h1
    linarith
  refine ⟨?_, ?_, ?_⟩
  · have := extract_go_length mkId video_id fps
      ((pyInt (fps * FRAME_EXTRACTION_RATE)).toNat) total_read_frames 0 0
    simpa [MAX_FRAMES_PER_VIDEO] using this
  · intro i hi
    have hi' : i < (_extract_frames_go mkId video_id fps
        ((pyInt (fps * FRAME_EXTRACTION_RATE)).toNat) total_read_frames 0 0).length := hi
    have h1 := extract_go_frame_number mkId video_id fps
      ((pyInt (fps * FRAME_EXTRACTION_RATE)).toNat) total_read_frames 0 0 i hi'
    rw [List.getElem?_eq_getElem hi'] at h1
    rw [List.get_eq_getElem]
    simpa using h1
  · exact (extract_go_timestamps mkId video_id fps
      ((pyInt (fps * FRAME_EXTRACTION_RATE)).toNat) hfps total_read_frames 0 0).1

/-- Witness for C10: three reads at one frame per second stay under the
300-frame cap. -/
theorem C10_witness :
    (_extract_frames (fun _ => "id") "v" 1 3).length ≤ 300 :=
  (C10_extract_frames (fun _ => "id") "v" 1 3
      (by simp [pyInt, FRAME_EXTRACTION_RATE])).1

end VideoRAG
